import Mathlib

/-!
# DNS host records client (`host.go`)

A shallow embedding of `host.go`: the record-type membership test
`CheckRecordType`, and the two operations `SetHosts` and `GetHosts`, which build a
flat key/value parameter map, hand it to the request layer, and decode the reply.

Modelling conventions.

* Go strings are Lean `String`s; Go `int` is `Int` (no arithmetic in this file can
  overflow: the only arithmetic is `itr + 1` on a slice index).
* `map[string]string` is an association list with unique keys (`Params`); the order
  of the list is the order of first insertion and carries no meaning.
* The collaborators (`NewRequest`, `Http.Do`, `decode`, `Body.Close`,
  `publicsuffix.PublicSuffix`) are fields of an environment `Env`.  They act on an
  explicit world state, and every call is recorded in a list of `Call` events, so
  that "no request was issued" is a statement about that list.
* A returned pair `([]Record, error)` is `List Record × Option Error`; the nil slice
  is `[]` and the nil error is `none`.
-/

namespace Namecheap

/-! ## Constants -/

/-- Lower TTL bound, `minTTL int = 60`. -/
def minTTL : Int := 60

/-- Upper TTL bound, `maxTTL int = 60000`. -/
def maxTTL : Int := 60000

/-- The slice `allowedRecordTypes`, in source order. -/
def allowedRecordTypes : List String :=
  ["A", "AAAA", "ALIAS", "CAA", "CNAME", "MX", "MXE", "TXT", "URL", "URL301", "FRAME"]

/-! ## `CheckRecordType` -/

/-- The `for _, legalRecordType := range allowedRecordTypes` loop of `CheckRecordType`,
over the part of the slice still to be visited. -/
def CheckRecordType.loop (recordType : String) : List String → Bool
  | [] => false
  | legalRecordType :: rest =>
    if recordType = legalRecordType then true else CheckRecordType.loop recordType rest

/-- Go `CheckRecordType(recordType string) bool`. -/
def CheckRecordType (recordType : String) : Bool :=
  CheckRecordType.loop recordType allowedRecordTypes

/-! ## Go library functions used by `host.go` -/

/-- Go `strings.HasSuffix(s, suffix)`. -/
def HasSuffix (s suffix : String) : Bool :=
  suffix.data.reverse.isPrefixOf s.data.reverse

/-- Go `strings.TrimSuffix(s, suffix)`: `s` without the trailing `suffix` when `s` ends
with it, and `s` itself otherwise. -/
def TrimSuffix (s suffix : String) : String :=
  if HasSuffix s suffix then String.mk (s.data.take (s.data.length - suffix.data.length))
  else s

/-- Go `strings.Join(elems, sep)`. -/
def Join : List String → String → String
  | [], _ => ""
  | [a], _ => a
  | a :: b :: rest, sep => a ++ sep ++ Join (b :: rest) sep

/-- Go `strconv.Itoa(i)`: decimal text, with a leading `-` for negative numbers. -/
def Itoa (i : Int) : String :=
  match i with
  | Int.ofNat n => String.mk (Nat.toDigits 10 n)
  | Int.negSucc n => String.mk ('-' :: Nat.toDigits 10 (n + 1))

/-- Go `strconv.Quote`, as reached through the verb `%q`, on text made of printable
ASCII: the text between double quotes, with a backslash before each double quote and
each backslash.  (The only argument `host.go` passes is the joined list of allowed
record types.) -/
def Quote (s : String) : String :=
  String.mk ('"' :: (s.data.flatMap fun c =>
    if c = '"' ∨ c = '\\' then ['\\', c] else [c]) ++ ['"'])

/-! ## Data model -/

/-- A Go `error` value; `msg` is what its `Error()` method returns. -/
structure Error where
  msg : String
deriving DecidableEq, Repr

/-- Modelled from the spec: the struct `Record` is declared outside `host.go`; its
fields are the five that `host.go` reads, with the types the spec gives
(`Name`, `RecordType`, `Address` strings, `MXPref` and `TTL` integers). -/
structure Record where
  Name : String
  RecordType : String
  Address : String
  MXPref : Int
  TTL : Int
deriving DecidableEq, Repr

/-- Modelled from the spec: one entry of the `Errors` list of a decoded set-hosts
response, a `(Number, Message)` pair of strings; declared outside `host.go`. -/
structure ResponseError where
  Number : String
  Message : String
deriving DecidableEq, Repr

/-- Modelled from the spec: the decode target `RecordsCreateResult`, declared outside
`host.go`, reduced to the two parts `SetHosts` reads:
`CommandResponse.DomainDNSSetHostsResult.IsSuccess` and `Errors`. -/
structure RecordsCreateResult where
  IsSuccess : Bool
  Errors : List ResponseError
deriving DecidableEq, Repr

/-- Modelled from the spec: the decode target `RecordsResponse`, declared outside
`host.go`, reduced to the part `GetHosts` reads: `CommandResponse.Records`. -/
structure RecordsResponse where
  Records : List Record
deriving DecidableEq, Repr

/-- A Go `map[string]string`: an association list in which every key occurs once. -/
abbrev Params := List (String × String)

/-- The assignment `params[k] = v`: overwrite the entry of `k` when there is one, add
an entry otherwise. -/
def Params.set : Params → String → String → Params
  | [], k, v => [(k, v)]
  | (k1, v1) :: rest, k, v =>
    if k1 = k then (k, v) :: rest else (k1, v1) :: Params.set rest k v

/-- The read `params[k]`, `none` when `k` has no entry. -/
def Params.get (m : Params) (k : String) : Option String :=
  match m with
  | [] => none
  | (k1, v1) :: rest => if k1 = k then some v1 else Params.get rest k

/-- The keys of a parameter map. -/
def Params.keys (m : Params) : List String := m.map Prod.fst

/-! ## `fmt.Errorf` called with a format and no operands

`SetHosts` passes the accumulated error text to `fmt.Errorf` as the *format*.  What
follows is `(*pp).doPrintf` of package `fmt` for an empty operand list (`len(a) = 0`):
with no operand, `argNum` stays `0`, no operand is ever printed, and the flags, width
and precision that are parsed have no effect beyond the text they consume. -/

/-- The constant `badWidthString`. -/
def badWidthString : List Char := "%!(BADWIDTH)".data
/-- The constant `badPrecString`. -/
def badPrecString : List Char := "%!(BADPREC)".data
/-- The constant `noVerbString`. -/
def noVerbString : List Char := "%!(NOVERB)".data

/-- The function `tooLarge` of package `fmt`. -/
def tooLarge (x : Int) : Bool := decide (x > 1000000 ∨ x < -1000000)

/-- The loop of `parsenum` over `s[newi:end]`; the third component is `s[newi:end]` for
the returned `newi` (so `[]` stands for `newi = end`). -/
def parsenum.loop : List Char → Int → Bool → Int × Bool × List Char
  | [], num, isnum => (num, isnum, [])
  | c :: cs, num, isnum =>
    if c.isDigit then
      if tooLarge num then (0, false, [])
      else parsenum.loop cs (num * 10 + ((c.toNat - '0'.toNat : Nat) : Int)) true
    else (num, isnum, c :: cs)

/-- The function `parsenum(s, start, end)` on the segment `s[start:end]`. -/
def parsenum (seg : List Char) : Int × Bool × List Char :=
  if seg = [] then (0, false, []) else parsenum.loop seg 0 false

/-- The search for the closing bracket in `parseArgNumber`: the text before the first
`]` and the text after it. -/
def parseArgNumber.find : List Char → Option (List Char × List Char)
  | [] => none
  | c :: cs =>
    if c = ']' then some ([], cs)
    else (parseArgNumber.find cs).map fun p => (c :: p.1, p.2)

/-- The function `parseArgNumber(format)`, where `format` starts at an opening bracket:
the index, the text left after the `wid` bytes consumed, and `ok`. -/
def parseArgNumber (format : List Char) : Int × List Char × Bool :=
  if format.length < 3 then (0, format.drop 1, false)
  else
    match parseArgNumber.find (format.drop 1) with
    | none => (0, format.drop 1, false)
    | some (inside, after) =>
      match parsenum inside with
      | (width, ok, rest) =>
        if !ok || rest ≠ [] then (0, after, false) else (width - 1, after, true)

/-- The method `argNumber` with `numArgs = 0`: the text left, `found`, and the new value
of `goodArgNum`.  No index is below `numArgs`, so a bracket always clears
`goodArgNum`. -/
def argNumber (format : List Char) (goodArgNum : Bool) : List Char × Bool × Bool :=
  match format with
  | '[' :: _ =>
    match parseArgNumber format with
    | (_, rest, ok) => (rest, ok, false)
  | _ => (format, false, goodArgNum)

/-- The flag loop of `doPrintf`; the fast path for simple verbs needs an operand and is
never taken. -/
def doPrintf.flags : List Char → List Char
  | [] => []
  | c :: cs =>
    if c = '#' ∨ c = '0' ∨ c = '+' ∨ c = '-' ∨ c = ' ' then doPrintf.flags cs else c :: cs

/-- The width part of one verb: text written, text left, `afterIndex`, `goodArgNum`. -/
def doPrintf.width (format : List Char) (afterIndex goodArgNum : Bool) :
    List Char × List Char × Bool × Bool :=
  match format with
  | '*' :: rest => (badWidthString, rest, false, goodArgNum)
  | _ =>
    match parsenum format with
    | (_, widPresent, rest) =>
      ([], rest, afterIndex, if afterIndex && widPresent then false else goodArgNum)

/-- The precision part of one verb: text written, text left, `afterIndex`,
`goodArgNum`. -/
def doPrintf.precision (format : List Char) (afterIndex goodArgNum : Bool) :
    List Char × List Char × Bool × Bool :=
  match format with
  | '.' :: rest =>
    match argNumber rest (if afterIndex then false else goodArgNum) with
    | (rest1, afterIndex1, goodArgNum1) =>
      match rest1 with
      | '*' :: rest2 => (badPrecString, rest2, false, goodArgNum1)
      | _ =>
        match parsenum rest1 with
        | (_, _, rest2) => ([], rest2, afterIndex1, goodArgNum1)
  | _ => ([], format, afterIndex, goodArgNum)

/-- One verb of `doPrintf`, from the byte after `%`: the text written and the text left,
or `none` for the text left when the loop is left by `break`. -/
def doPrintf.verb (format : List Char) : List Char × Option (List Char) :=
  match argNumber (doPrintf.flags format) true with
  | (f1, afterIndex1, good1) =>
    match doPrintf.width f1 afterIndex1 good1 with
    | (out2, f2, afterIndex2, good2) =>
      match doPrintf.precision f2 afterIndex2 good2 with
      | (out3, f3, afterIndex3, good3) =>
        match (if !afterIndex3 then argNumber f3 good3 else (f3, afterIndex3, good3)) with
        | (f4, _, good4) =>
          match f4 with
          | [] => (out2 ++ out3 ++ noVerbString, none)
          | verb :: rest =>
            if verb = '%' then (out2 ++ out3 ++ ['%'], some rest)
            else if !good4 then
              (out2 ++ out3 ++ ("%!".data ++ [verb] ++ "(BADINDEX)".data), some rest)
            else (out2 ++ out3 ++ ("%!".data ++ [verb] ++ "(MISSING)".data), some rest)

/-- The `formatLoop` of `doPrintf`.  Every round consumes at least one byte of the
format, so `fuel` at least the length of the format is never exhausted
(`doPrintf.loop_fuel`). -/
def doPrintf.loop : Nat → List Char → List Char
  | 0, _ => []
  | _ + 1, [] => []
  | fuel + 1, c :: cs =>
    if c ≠ '%' then c :: doPrintf.loop fuel cs
    else
      match doPrintf.verb cs with
      | (out, none) => out
      | (out, some rest) => out ++ doPrintf.loop fuel rest

/-- The text `doPrintf(format, nil)` leaves in the buffer. -/
def doPrintf (format : String) : String :=
  String.mk (doPrintf.loop format.data.length format.data)

/-- Go `fmt.Errorf(format)` with no operand: an error whose message is the formatted
text. -/
def Errorf (format : String) : Error := ⟨doPrintf format⟩

/-! ## The client and its collaborators -/

/-- The collaborators of `host.go`, none of which is defined in it.  `W` is the state of
everything outside the client (the network, the remote service); `Req` and `Resp` stand
for `*http.Request` and `*http.Response`. -/
structure Env (W Req Resp : Type) where
  /-- Go `publicsuffix.PublicSuffix(domain)`: the public suffix and the `icann` flag
  (which `host.go` discards). -/
  PublicSuffix : String → String × Bool
  /-- The method `c.NewRequest(params)`. -/
  NewRequest : Params → W → Except Error Req × W
  /-- The method `c.Http.Do(req)`. -/
  Do : Req → W → Except Error Resp × W
  /-- The call `c.decode(resp.Body, &ret)` with `ret` a `RecordsCreateResult`. -/
  decodeCreateResult : Resp → W → Except Error RecordsCreateResult × W
  /-- The call `c.decode(resp.Body, &recordsResponse)` with a `RecordsResponse`. -/
  decodeRecordsResponse : Resp → W → Except Error RecordsResponse × W
  /-- The deferred `resp.Body.Close()`. -/
  Close : Resp → W → W

/-- One call made to a collaborator that acts on the world. -/
inductive Call (Req Resp : Type) where
  | NewRequest (params : Params)
  | Do (req : Req)
  | decode (resp : Resp)
  | Close (resp : Resp)
deriving DecidableEq, Repr

/-- What a call of `SetHosts` or `GetHosts` leaves behind: the returned pair
(`records`, `err`), the world state, and the collaborator calls made, in order. -/
structure Outcome (W Req Resp : Type) where
  records : List Record
  err : Option Error
  world : W
  calls : List (Call Req Resp)
deriving DecidableEq, Repr

variable {W Req Resp : Type}

/-- Go `(c *Client) GetHosts(domain string) ([]Record, error)`. -/
def GetHosts (c : Env W Req Resp) (domain : String) (w : W) : Outcome W Req Resp :=
  let eTLD := (c.PublicSuffix domain).1
  let SLD := TrimSuffix domain ("." ++ eTLD)
  let params : Params :=
    [("Command", "namecheap.domains.dns.getHosts"), ("SLD", SLD), ("TLD", eTLD)]
  match c.NewRequest params w with
  | (.error err, w1) => ⟨[], some err, w1, [.NewRequest params]⟩
  | (.ok req, w1) =>
    match c.Do req w1 with
    | (.error err, w2) => ⟨[], some err, w2, [.NewRequest params, .Do req]⟩
    | (.ok resp, w2) =>
      match c.decodeRecordsResponse resp w2 with
      | (.error err, w3) =>
        ⟨[], some err, c.Close resp w3,
          [.NewRequest params, .Do req, .decode resp, .Close resp]⟩
      | (.ok recordsResponse, w3) =>
        ⟨recordsResponse.Records, none, c.Close resp w3,
          [.NewRequest params, .Do req, .decode resp, .Close resp]⟩

/-- The error of the record-type check,
`fmt.Errorf("Invalid record type, allowed types=%q", strings.Join(allowedRecordTypes, ", "))`. -/
def errInvalidRecordType : Error :=
  ⟨"Invalid record type, allowed types=" ++ Quote (Join allowedRecordTypes ", ")⟩

/-- The error of the TTL check,
`fmt.Errorf("Invalid ttl value, min=%d, max=%d", minTTL, maxTTL)`. -/
def errInvalidTTL : Error :=
  ⟨"Invalid ttl value, min=" ++ Itoa minTTL ++ ", max=" ++ Itoa maxTTL⟩

/-- The loop `for itr < numberOfRecords` of `SetHosts`.  The first argument is
`records[itr:]`, the records still to be visited; the result is the `params` map after
the loop, or the error of the `return nil, ...` that leaves it. -/
def SetHosts.loop : List Record → Nat → Params → Except Error Params
  | [], _, params => .ok params
  | r :: rest, itr, params =>
    let sNumb := Itoa ((itr : Int) + 1)
    let params := params.set ("HostName" ++ sNumb) r.Name
    let recordType := r.RecordType
    if !CheckRecordType recordType then .error errInvalidRecordType
    else
      let params := params.set ("RecordType" ++ sNumb) recordType
      let params := params.set ("Address" ++ sNumb) r.Address
      let params := params.set ("MXPref" ++ sNumb) (Itoa r.MXPref)
      if r.TTL < minTTL ∨ r.TTL > maxTTL then .error errInvalidTTL
      else
        let params := params.set ("TTL" ++ sNumb) (Itoa r.TTL)
        SetHosts.loop rest (itr + 1) params

/-- The writes to `errorBuf` in the loop over `ret.Errors`, from the buffer content
`buf`. -/
def errorBuf : String → List ResponseError → String
  | buf, [] => buf
  | buf, responseError :: rest =>
    errorBuf (buf ++ "Number: " ++ responseError.Number ++ " Message: "
      ++ responseError.Message ++ "\n") rest

/-- Go `(c *Client) SetHosts(domain string, records []Record) ([]Record, error)`. -/
def SetHosts (c : Env W Req Resp) (domain : String) (records : List Record) (w : W) :
    Outcome W Req Resp :=
  let eTLD := (c.PublicSuffix domain).1
  let SLD := TrimSuffix domain ("." ++ eTLD)
  let params : Params :=
    [("Command", "namecheap.domains.dns.setHosts"), ("SLD", SLD), ("TLD", eTLD)]
  match SetHosts.loop records 0 params with
  | .error err => ⟨[], some err, w, []⟩
  | .ok params =>
    match c.NewRequest params w with
    | (.error err, w1) => ⟨[], some err, w1, [.NewRequest params]⟩
    | (.ok req, w1) =>
      match c.Do req w1 with
      | (.error err, w2) => ⟨[], some err, w2, [.NewRequest params, .Do req]⟩
      | (.ok resp, w2) =>
        match c.decodeCreateResult resp w2 with
        | (.error err, w3) =>
          ⟨[], some err, c.Close resp w3,
            [.NewRequest params, .Do req, .decode resp, .Close resp]⟩
        | (.ok ret, w3) =>
          if ret.IsSuccess = false then
            ⟨[], some (Errorf (errorBuf "" ret.Errors)), c.Close resp w3,
              [.NewRequest params, .Do req, .decode resp, .Close resp]⟩
          else
            let got := GetHosts c domain w3
            match got.err with
            | some err =>
              ⟨[], some err, c.Close resp got.world,
                [.NewRequest params, .Do req, .decode resp] ++ got.calls ++ [.Close resp]⟩
            | none =>
              ⟨got.records, none, c.Close resp got.world,
                [.NewRequest params, .Do req, .decode resp] ++ got.calls ++ [.Close resp]⟩

/-! ## A transport double

A fixed environment on which the operations can be run: the world is a script of
replies still to be served, `NewRequest` returns the parameter map as the request, and
`Do` serves the next reply of the script. -/

/-- A reply of the scripted transport. -/
inductive Reply where
  | newRequestFails (e : Error)
  | doFails (e : Error)
  | decodeFails (e : Error)
  | created (ret : RecordsCreateResult)
  | hosts (r : RecordsResponse)
deriving DecidableEq, Repr

/-- The public suffixes the double knows. -/
def scriptedSuffix (domain : String) : String × Bool :=
  if HasSuffix domain ".co.uk" then ("co.uk", true)
  else if HasSuffix domain ".com" then ("com", true)
  else (domain, false)

/-- The scripted transport. -/
def scripted : Env (List Reply) Params Reply where
  PublicSuffix := scriptedSuffix
  NewRequest := fun params w =>
    match w with
    | Reply.newRequestFails e :: rest => (.error e, rest)
    | _ => (.ok params, w)
  Do := fun _ w =>
    match w with
    | [] => (.error ⟨"no reply"⟩, [])
    | Reply.doFails e :: rest => (.error e, rest)
    | r :: rest => (.ok r, rest)
  decodeCreateResult := fun resp w =>
    match resp with
    | Reply.created ret => (.ok ret, w)
    | Reply.decodeFails e => (.error e, w)
    | _ => (.error ⟨"unexpected body"⟩, w)
  decodeRecordsResponse := fun resp w =>
    match resp with
    | Reply.hosts r => (.ok r, w)
    | Reply.decodeFails e => (.error e, w)
    | _ => (.error ⟨"unexpected body"⟩, w)
  Close := fun _ w => w

/-! ## The parameter set the specification describes -/

/-- A record passes validation: its type is allowed and its TTL lies in `[60, 60000]`. -/
def Record.Valid (r : Record) : Prop :=
  CheckRecordType r.RecordType = true ∧ 60 ≤ r.TTL ∧ r.TTL ≤ 60000

instance (r : Record) : Decidable r.Valid := by
  unfold Record.Valid; infer_instance

/-- The five indexed parameters of the record with 1-based index `i`, as the
specification lists them. -/
def recordGroup (i : Nat) (r : Record) : Params :=
  [("HostName" ++ Itoa i, r.Name),
   ("RecordType" ++ Itoa i, r.RecordType),
   ("Address" ++ Itoa i, r.Address),
   ("MXPref" ++ Itoa i, Itoa r.MXPref),
   ("TTL" ++ Itoa i, Itoa r.TTL)]

/-- The groups of a list of records whose first record has index `i`. -/
def recordGroups : Nat → List Record → Params
  | _, [] => []
  | i, r :: rest => recordGroup i r ++ recordGroups (i + 1) rest

/-- The parameter set the specification describes for one request: the three shared
fields, then one group per record, indexed from 1 in input order. -/
def expectedParams (command SLD TLD : String) (records : List Record) : Params :=
  [("Command", command), ("SLD", SLD), ("TLD", TLD)] ++ recordGroups 1 records

/-- The parameter set the specification describes for `SetHosts(domain, records)`. -/
def setHostsParams (c : Env W Req Resp) (domain : String) (records : List Record) : Params :=
  expectedParams "namecheap.domains.dns.setHosts"
    (TrimSuffix domain ("." ++ (c.PublicSuffix domain).1)) (c.PublicSuffix domain).1 records

/-- The text the specification gives for one remote error pair. -/
def renderError (e : ResponseError) : String :=
  "Number: " ++ e.Number ++ " Message: " ++ e.Message

/-- Every rendered pair followed by a newline, in list order. -/
def renderLines : List ResponseError → String
  | [] => ""
  | e :: rest => renderError e ++ "\n" ++ renderLines rest

/-- The five keys of the group with index `j`. -/
def groupKeys (j : Nat) : List String :=
  ["HostName" ++ Itoa j, "RecordType" ++ Itoa j, "Address" ++ Itoa j,
   "MXPref" ++ Itoa j, "TTL" ++ Itoa j]

/-! ## Decimal text -/

/-- Reading decimal digits back, continuing from the value `acc`. -/
def decDigits (acc : Nat) (l : List Char) : Nat :=
  l.foldl (fun a ch => a * 10 + (ch.toNat - 48)) acc

theorem digitChar_toNat (m : Nat) (h : m < 10) : (Nat.digitChar m).toNat - 48 = m := by
  interval_cases m <;> rfl

theorem decDigits_toDigitsCore (fuel : Nat) : ∀ (n : Nat) (ds : List Char), n < fuel →
    decDigits 0 (Nat.toDigitsCore 10 fuel n ds) = decDigits n ds := by
  induction fuel with
  | zero => intro n ds h; omega
  | succ f ih =>
    intro n ds h
    unfold Nat.toDigitsCore
    simp only
    split
    · have hn : n < 10 := by omega
      simp [decDigits, Nat.mod_eq_of_lt hn, digitChar_toNat n hn]
    · rw [ih (n / 10) _ (by omega)]
      simp [decDigits, digitChar_toNat _ (Nat.mod_lt n (by decide : 0 < 10))]
      congr 1
      omega

theorem toDigits_injective {a b : Nat} (h : Nat.toDigits 10 a = Nat.toDigits 10 b) :
    a = b := by
  have ha := decDigits_toDigitsCore (a + 1) a [] (by omega)
  have hb := decDigits_toDigitsCore (b + 1) b [] (by omega)
  unfold Nat.toDigits at h
  rw [h] at ha
  simp [decDigits] at ha hb
  omega

/-- The decimal texts of two natural numbers agree only when the numbers do. -/
theorem Itoa_natCast_injective {a b : Nat} (h : Itoa (a : Int) = Itoa (b : Int)) : a = b := by
  have h1 : Itoa (a : Int) = String.mk (Nat.toDigits 10 a) := rfl
  have h2 : Itoa (b : Int) = String.mk (Nat.toDigits 10 b) := rfl
  rw [h1, h2] at h
  exact toDigits_injective (by injection h)

/-! ## Parameter maps -/

theorem Params.set_of_not_mem (m : Params) (k v : String) (h : k ∉ m.keys) :
    m.set k v = m ++ [(k, v)] := by
  induction m with
  | nil => rfl
  | cons p rest ih =>
    obtain ⟨k1, v1⟩ := p
    simp only [Params.keys, List.map_cons, List.mem_cons, not_or] at h
    have hne : ¬ k1 = k := fun e => h.1 e.symm
    simp only [Params.set, hne, if_false, List.cons_append]
    rw [ih (by simpa [Params.keys] using h.2)]

theorem Params.get_of_mem (m : Params) (hnd : m.keys.Nodup) (k v : String)
    (h : (k, v) ∈ m) : m.get k = some v := by
  induction m with
  | nil => simp at h
  | cons p rest ih =>
    obtain ⟨k1, v1⟩ := p
    simp only [Params.keys, List.map_cons, List.nodup_cons] at hnd
    simp only [List.mem_cons, Prod.mk.injEq] at h
    rcases h with ⟨rfl, rfl⟩ | h
    · simp [Params.get]
    · have hne : ¬ k1 = k := by
        rintro rfl
        exact hnd.1 (List.mem_map_of_mem Prod.fst h)
      simp only [Params.get, hne, if_false]
      exact ih hnd.2 h

theorem Params.keys_append (m l : Params) : (m ++ l).keys = m.keys ++ l.keys := by
  simp [Params.keys]

/-- Assigning, one after the other, entries whose keys are new and differ from each
other appends them. -/
theorem Params.foldl_set_fresh : ∀ (l m : Params), l.keys.Nodup →
    (∀ k ∈ l.keys, k ∉ m.keys) →
    l.foldl (fun acc p => acc.set p.1 p.2) m = m ++ l := by
  intro l
  induction l with
  | nil => intro m _ _; simp
  | cons p rest ih =>
    intro m hnd hfresh
    obtain ⟨k, v⟩ := p
    simp only [Params.keys, List.map_cons, List.nodup_cons] at hnd
    have hk : k ∉ m.keys := hfresh k (by simp [Params.keys])
    simp only [List.foldl_cons]
    rw [Params.set_of_not_mem m k v hk, ih (m ++ [(k, v)]) hnd.2]
    · simp
    · intro k1 hk1
      rw [Params.keys_append]
      simp only [List.mem_append, not_or]
      refine ⟨hfresh k1 (by simp only [Params.keys, List.map_cons, List.mem_cons]; exact Or.inr hk1), ?_⟩
      simp only [Params.keys, List.map_cons, List.map_nil, List.mem_singleton]
      rintro rfl
      exact hnd.1 hk1

theorem recordGroup_keys (j : Nat) (r : Record) : (recordGroup j r).keys = groupKeys j := rfl

theorem groupKeys_nodup (j : Nat) : (groupKeys j).Nodup := by
  simp only [groupKeys, List.nodup_cons, List.mem_cons, List.mem_singleton, List.not_mem_nil,
    not_or, not_false_eq_true, List.nodup_nil, and_true]
  refine ⟨⟨?_, ?_, ?_, ?_⟩, ⟨?_, ?_, ?_⟩, ⟨?_, ?_⟩, ?_⟩ <;>
    (intro h; have h1 := congrArg String.data h; simp at h1)

theorem groupKeys_disjoint {a b : Nat} (hab : a ≠ b) (k : String) (ha : k ∈ groupKeys a) :
    k ∉ groupKeys b := by
  intro hb
  simp only [groupKeys, List.mem_cons, List.mem_singleton, List.not_mem_nil, or_false] at ha hb
  rcases ha with rfl | rfl | rfl | rfl | rfl <;> rcases hb with h | h | h | h | h <;>
    (have h1 := congrArg String.data h
     simp at h1
     try exact hab (Itoa_natCast_injective (String.ext h1)))

theorem baseKeys_not_mem_groupKeys (j : Nat) (k : String)
    (hk : k = "Command" ∨ k = "SLD" ∨ k = "TLD") : k ∉ groupKeys j := by
  intro hb
  simp only [groupKeys, List.mem_cons, List.mem_singleton, List.not_mem_nil, or_false] at hb
  rcases hk with rfl | rfl | rfl <;> rcases hb with h | h | h | h | h <;>
    (have h1 := congrArg String.data h; simp at h1)

/-! ## The validation loop -/

/-- On valid records the loop of `SetHosts` ends normally, and it has added to a map
that holds no indexed key beyond `itr` the groups `itr + 1, itr + 2, ...`, in order. -/
theorem SetHosts.loop_of_valid : ∀ (records : List Record) (itr : Nat) (params : Params),
    (∀ r ∈ records, r.Valid) →
    (∀ k ∈ params.keys, ∀ j, itr < j → k ∉ groupKeys j) →
    SetHosts.loop records itr params = .ok (params ++ recordGroups (itr + 1) records) := by
  intro records
  induction records with
  | nil => intro itr params _ _; simp [SetHosts.loop, recordGroups]
  | cons r rest ih =>
    intro itr params hvalid hfresh
    obtain ⟨htype, hlo, hhi⟩ := hvalid r (by simp)
    have hcast : ((itr : Int) + 1) = ((itr + 1 : Nat) : Int) := by push_cast; rfl
    have hgroup : (recordGroup (itr + 1) r).foldl (fun acc p => acc.set p.1 p.2) params
        = params ++ recordGroup (itr + 1) r := by
      apply Params.foldl_set_fresh
      · rw [recordGroup_keys]; exact groupKeys_nodup _
      · intro k hk hmem
        rw [recordGroup_keys] at hk
        exact hfresh k hmem (itr + 1) (Nat.lt_succ_self itr) hk
    have httl : ¬ (r.TTL < minTTL ∨ r.TTL > maxTTL) := by
      simp only [minTTL, maxTTL]; omega
    simp only [SetHosts.loop, htype, Bool.not_true, Bool.false_eq_true, if_false, httl, hcast]
    have hstep : ((((params.set ("HostName" ++ Itoa ((itr + 1 : Nat) : Int)) r.Name).set
        ("RecordType" ++ Itoa ((itr + 1 : Nat) : Int)) r.RecordType).set
        ("Address" ++ Itoa ((itr + 1 : Nat) : Int)) r.Address).set
        ("MXPref" ++ Itoa ((itr + 1 : Nat) : Int)) (Itoa r.MXPref)).set
        ("TTL" ++ Itoa ((itr + 1 : Nat) : Int)) (Itoa r.TTL)
        = params ++ recordGroup (itr + 1) r := hgroup
    rw [hstep, ih (itr + 1) (params ++ recordGroup (itr + 1) r) (fun x hx => hvalid x (by simp [hx]))]
    · simp [recordGroups]
    · intro k hk j hj
      rw [Params.keys_append, List.mem_append] at hk
      rcases hk with hk | hk
      · exact hfresh k hk j (by omega)
      · rw [recordGroup_keys] at hk
        exact groupKeys_disjoint (by omega) k hk

/-- The first invalid record decides the result of the loop: the record-type error when
its type is not allowed, the TTL error otherwise. -/
theorem SetHosts.loop_of_first_invalid : ∀ (pre : List Record) (r : Record)
    (post : List Record) (itr : Nat) (params : Params),
    (∀ x ∈ pre, x.Valid) → ¬ r.Valid →
    SetHosts.loop (pre ++ r :: post) itr params =
      .error (if CheckRecordType r.RecordType = false then errInvalidRecordType
        else errInvalidTTL) := by
  intro pre
  induction pre with
  | nil =>
    intro r post itr params _ hbad
    by_cases htype : CheckRecordType r.RecordType = true
    · have httl : r.TTL < minTTL ∨ r.TTL > maxTTL := by
        simp only [Record.Valid, htype, true_and] at hbad
        simp only [minTTL, maxTTL]; omega
      simp [SetHosts.loop, htype, httl]
    · simp only [Bool.not_eq_true] at htype
      simp [SetHosts.loop, htype]
  | cons x rest ih =>
    intro r post itr params hvalid hbad
    obtain ⟨htype, hlo, hhi⟩ := hvalid x (by simp)
    have httl : ¬ (x.TTL < minTTL ∨ x.TTL > maxTTL) := by
      simp only [minTTL, maxTTL]; omega
    simp only [List.cons_append, SetHosts.loop, htype, Bool.not_true, Bool.false_eq_true,
      if_false, httl]
    exact ih r post _ _ (fun y hy => hvalid y (by simp [hy])) hbad

/-- A list with an invalid record splits at its first invalid record. -/
theorem exists_first_invalid : ∀ (records : List Record), (∃ r ∈ records, ¬ r.Valid) →
    ∃ pre r post, records = pre ++ r :: post ∧ (∀ x ∈ pre, x.Valid) ∧ ¬ r.Valid := by
  intro records
  induction records with
  | nil => rintro ⟨r, hr, _⟩; simp at hr
  | cons x rest ih =>
    intro h
    by_cases hx : x.Valid
    · obtain ⟨r, hr, hbad⟩ := h
      have hrest : ∃ r ∈ rest, ¬ r.Valid := by
        rcases List.mem_cons.mp hr with rfl | hr
        · exact absurd hx hbad
        · exact ⟨r, hr, hbad⟩
      obtain ⟨pre, r1, post, heq, hpre, hbad1⟩ := ih hrest
      refine ⟨x :: pre, r1, post, by simp [heq], ?_, hbad1⟩
      intro y hy
      rcases List.mem_cons.mp hy with rfl | hy
      · exact hx
      · exact hpre y hy
    · exact ⟨[], x, rest, rfl, by simp, hx⟩

theorem recordGroups_length : ∀ (records : List Record) (i : Nat),
    (recordGroups i records).length = 5 * records.length := by
  intro records
  induction records with
  | nil => intro i; rfl
  | cons r rest ih =>
    intro i
    simp only [recordGroups, List.length_append, ih, List.length_cons]
    simp only [recordGroup, List.length_cons, List.length_nil]
    omega

theorem recordGroups_keys_mem : ∀ (records : List Record) (i : Nat) (k : String),
    k ∈ (recordGroups i records).keys → ∃ j, i ≤ j ∧ k ∈ groupKeys j := by
  intro records
  induction records with
  | nil => intro i k hk; simp [recordGroups, Params.keys] at hk
  | cons r rest ih =>
    intro i k hk
    simp only [recordGroups] at hk
    rw [Params.keys_append, List.mem_append] at hk
    rcases hk with hk | hk
    · exact ⟨i, le_refl i, by rwa [recordGroup_keys] at hk⟩
    · obtain ⟨j, hj, hkj⟩ := ih (i + 1) k hk
      exact ⟨j, by omega, hkj⟩

theorem recordGroups_keys_nodup : ∀ (records : List Record) (i : Nat),
    (recordGroups i records).keys.Nodup := by
  intro records
  induction records with
  | nil => intro i; simp [recordGroups, Params.keys]
  | cons r rest ih =>
    intro i
    simp only [recordGroups]
    rw [Params.keys_append, List.nodup_append]
    refine ⟨by rw [recordGroup_keys]; exact groupKeys_nodup i, ih (i + 1), ?_⟩
    intro k hk hk1
    rw [recordGroup_keys] at hk
    obtain ⟨j, hj, hkj⟩ := recordGroups_keys_mem rest (i + 1) k hk1
    exact groupKeys_disjoint (by omega) k hk hkj

theorem expectedParams_keys_nodup (command SLD TLD : String) (records : List Record) :
    (expectedParams command SLD TLD records).keys.Nodup := by
  unfold expectedParams
  rw [Params.keys_append, List.nodup_append]
  refine ⟨by simp [Params.keys], recordGroups_keys_nodup records 1, ?_⟩
  intro k hk hk1
  obtain ⟨j, _, hkj⟩ := recordGroups_keys_mem records 1 k hk1
  refine baseKeys_not_mem_groupKeys j k ?_ hkj
  simpa [Params.keys] using hk

/-- On valid records the loop of `SetHosts`, started on the three shared fields, ends
with the parameter set the specification describes. -/
theorem SetHosts.loop_eq_setHostsParams (c : Env W Req Resp) (domain : String)
    (records : List Record) (hvalid : ∀ r ∈ records, r.Valid) :
    SetHosts.loop records 0
      [("Command", "namecheap.domains.dns.setHosts"),
       ("SLD", TrimSuffix domain ("." ++ (c.PublicSuffix domain).1)),
       ("TLD", (c.PublicSuffix domain).1)]
      = .ok (setHostsParams c domain records) := by
  rw [SetHosts.loop_of_valid records 0 _ hvalid]
  · rfl
  · intro k hk j _
    exact baseKeys_not_mem_groupKeys j k (by simpa [Params.keys] using hk)

/-- When some record is invalid, `SetHosts` returns at once with the error of the first
invalid record. -/
theorem SetHosts_of_first_invalid (c : Env W Req Resp) (domain : String) (w : W)
    (pre : List Record) (r : Record) (post : List Record)
    (hpre : ∀ x ∈ pre, x.Valid) (hbad : ¬ r.Valid) :
    SetHosts c domain (pre ++ r :: post) w =
      ⟨[], some (if CheckRecordType r.RecordType = false then errInvalidRecordType
        else errInvalidTTL), w, []⟩ := by
  simp only [SetHosts, SetHosts.loop_of_first_invalid pre r post 0 _ hpre hbad]

/-! ## The format loop never runs out of fuel -/

theorem parsenum.loop_length : ∀ (s : List Char) (num : Int) (isnum : Bool),
    (parsenum.loop s num isnum).2.2.length ≤ s.length := by
  intro s
  induction s with
  | nil => intro num isnum; simp [parsenum.loop]
  | cons ch rest ih =>
    intro num isnum
    simp only [parsenum.loop]
    split
    · split
      · simp
      · exact Nat.le_succ_of_le (ih _ _)
    · simp

theorem parsenum_length (s : List Char) : (parsenum s).2.2.length ≤ s.length := by
  unfold parsenum
  split
  · simp
  · exact parsenum.loop_length s 0 false

theorem parseArgNumber.find_length : ∀ (s inside after : List Char),
    parseArgNumber.find s = some (inside, after) → after.length < s.length := by
  intro s
  induction s with
  | nil => intro inside after h; simp [parseArgNumber.find] at h
  | cons ch rest ih =>
    intro inside after h
    simp only [parseArgNumber.find] at h
    split at h
    · simp only [Option.some.injEq, Prod.mk.injEq] at h
      rw [← h.2]
      simp
    · cases hf : parseArgNumber.find rest with
      | none => rw [hf] at h; simp at h
      | some p =>
        rw [hf] at h
        simp only [Option.map_some', Option.some.injEq, Prod.mk.injEq] at h
        have := ih p.1 p.2 hf
        rw [← h.2]
        simp only [List.length_cons]
        omega

theorem parseArgNumber_length (s : List Char) (hs : s ≠ []) :
    (parseArgNumber s).2.1.length < s.length := by
  have hpos : 0 < s.length := List.length_pos.mpr hs
  have hdrop : (s.drop 1).length < s.length := by simp; omega
  unfold parseArgNumber
  split
  · exact hdrop
  · split
    · exact hdrop
    · rename_i inside after hfind
      have h1 := parseArgNumber.find_length _ _ _ hfind
      split
      split <;> (simp only; omega)

theorem argNumber_length (s : List Char) (good : Bool) :
    (argNumber s good).1.length ≤ s.length := by
  unfold argNumber
  split
  · rename_i rest
    have := parseArgNumber_length ('[' :: rest) (by simp)
    split
    rename_i h
    rw [h] at this
    simp only at this ⊢
    omega
  · simp

theorem doPrintf.flags_length : ∀ (s : List Char), (doPrintf.flags s).length ≤ s.length := by
  intro s
  induction s with
  | nil => simp [doPrintf.flags]
  | cons ch rest ih =>
    simp only [doPrintf.flags]
    split
    · exact Nat.le_succ_of_le ih
    · simp

theorem doPrintf.width_length (s : List Char) (a g : Bool) :
    (doPrintf.width s a g).2.1.length ≤ s.length := by
  unfold doPrintf.width
  split
  · simp
  · split
    rename_i h
    have := parsenum_length s
    rw [h] at this
    exact this

theorem doPrintf.precision_length (s : List Char) (a g : Bool) :
    (doPrintf.precision s a g).2.1.length ≤ s.length := by
  unfold doPrintf.precision
  split
  · rename_i rest
    split
    rename_i rest1 a1 g1 h
    have h1 := argNumber_length rest (if a then false else g)
    rw [h] at h1
    simp only at h1
    split
    · simp only [List.length_cons] at h1 ⊢
      omega
    · split
      rename_i h2
      have h3 := parsenum_length rest1
      rw [h2] at h3
      simp only [List.length_cons] at h3 ⊢
      omega
  · simp

theorem doPrintf.verb_length (s : List Char) (out rest : List Char)
    (h : doPrintf.verb s = (out, some rest)) : rest.length ≤ s.length := by
  unfold doPrintf.verb at h
  split at h
  rename_i f1 a1 g1 h1
  split at h
  rename_i out2 f2 a2 g2 h2
  split at h
  rename_i out3 f3 a3 g3 h3
  split at h
  rename_i f4 a4 g4 h4
  have l0 := doPrintf.flags_length s
  have l1 := argNumber_length (doPrintf.flags s) true
  rw [h1] at l1
  have l2 := doPrintf.width_length f1 a1 g1
  rw [h2] at l2
  have l3 := doPrintf.precision_length f2 a2 g2
  rw [h3] at l3
  have l4 : f4.length ≤ f3.length := by
    split at h4
    · have := argNumber_length f3 g3
      rw [h4] at this
      exact this
    · simp only [Prod.mk.injEq] at h4
      rw [← h4.1]
  simp only at l1 l2 l3
  split at h
  · simp at h
  · rename_i verb rest1
    have hrest : rest = rest1 := by
      split at h
      · simp only [Prod.mk.injEq, Option.some.injEq] at h; exact h.2.symm
      · split at h <;> (simp only [Prod.mk.injEq, Option.some.injEq] at h; exact h.2.symm)
    rw [hrest]
    simp only [List.length_cons] at l4
    omega

/-- The result of the format loop is the same for every amount of fuel that is at least
the length of the format. -/
theorem doPrintf.loop_fuel : ∀ (fuel1 fuel2 : Nat) (s : List Char),
    s.length ≤ fuel1 → s.length ≤ fuel2 → doPrintf.loop fuel1 s = doPrintf.loop fuel2 s := by
  intro fuel1
  induction fuel1 with
  | zero =>
    intro fuel2 s h1 _
    have hs : s = [] := List.length_eq_zero.mp (Nat.le_zero.mp h1)
    subst hs
    cases fuel2 <;> rfl
  | succ f1 ih =>
    intro fuel2 s h1 h2
    cases s with
    | nil => cases fuel2 <;> rfl
    | cons ch cs =>
      cases fuel2 with
      | zero => simp at h2
      | succ f2 =>
        simp only [List.length_cons, Nat.add_le_add_iff_right] at h1 h2
        simp only [doPrintf.loop]
        split
        · rw [ih f2 cs h1 h2]
        · split
          · rfl
          · rename_i out rest hv
            have hl := doPrintf.verb_length cs out rest hv
            rw [ih f2 rest (by omega) (by omega)]

/-! ## Formatting text that holds no verb -/

theorem doPrintf.loop_of_no_percent : ∀ (s : List Char) (fuel : Nat), s.length ≤ fuel →
    '%' ∉ s → doPrintf.loop fuel s = s := by
  intro s
  induction s with
  | nil => intro fuel _ _; cases fuel <;> rfl
  | cons ch rest ih =>
    intro fuel hfuel hno
    cases fuel with
    | zero => simp at hfuel
    | succ f =>
      simp only [List.mem_cons, not_or] at hno
      have hne : ch ≠ '%' := fun e => hno.1 e.symm
      simp only [doPrintf.loop, ne_eq, hne, not_false_eq_true, if_true]
      rw [ih f (by simpa using hfuel) hno.2]

/-- A format without `%` is the message of the error `fmt.Errorf` builds from it. -/
theorem Errorf_of_no_percent (format : String) (h : '%' ∉ format.data) :
    Errorf format = ⟨format⟩ := by
  simp only [Errorf, doPrintf, doPrintf.loop_of_no_percent format.data _ (le_refl _) h]

theorem errorBuf_eq : ∀ (errs : List ResponseError) (buf : String),
    errorBuf buf errs = buf ++ renderLines errs := by
  intro errs
  induction errs with
  | nil => intro buf; simp [errorBuf, renderLines]
  | cons e rest ih =>
    intro buf
    simp only [errorBuf, ih, renderLines, renderError]
    apply String.ext
    simp [List.append_assoc]

theorem renderLines_no_percent : ∀ (errs : List ResponseError),
    (∀ e ∈ errs, '%' ∉ e.Number.data ∧ '%' ∉ e.Message.data) →
    '%' ∉ (renderLines errs).data := by
  intro errs
  induction errs with
  | nil => intro _; simp [renderLines]
  | cons e rest ih =>
    intro h
    obtain ⟨h1, h2⟩ := h e (by simp)
    have h3 := ih (fun x hx => h x (by simp [hx]))
    simp only [renderLines, renderError, String.data_append, List.mem_append, not_or]
    refine ⟨⟨⟨⟨⟨by decide, h1⟩, by decide⟩, h2⟩, by decide⟩, h3⟩

theorem renderLines_contains : ∀ (errs : List ResponseError) (e : ResponseError),
    e ∈ errs → (renderError e).data <:+: (renderLines errs).data := by
  intro errs
  induction errs with
  | nil => intro e he; simp at he
  | cons x rest ih =>
    intro e he
    simp only [renderLines, String.data_append]
    rcases List.mem_cons.mp he with rfl | he
    · exact ⟨[], "\n".data ++ (renderLines rest).data, by simp⟩
    · obtain ⟨a, b, hab⟩ := ih e he
      exact ⟨(renderError x).data ++ "\n".data ++ a, b, by simp [← hab]⟩

theorem not_valid_of_type (r : Record) (h : CheckRecordType r.RecordType = false) :
    ¬ r.Valid := by
  simp [Record.Valid, h]

/-! ## `SetHosts` and `GetHosts` along each path of the round trip -/

theorem SetHosts_of_newRequest_error (c : Env W Req Resp) (domain : String)
    (records : List Record) (w : W) (hvalid : ∀ r ∈ records, r.Valid) (e : Error) (w1 : W)
    (hreq : c.NewRequest (setHostsParams c domain records) w = (.error e, w1)) :
    SetHosts c domain records w =
      ⟨[], some e, w1, [.NewRequest (setHostsParams c domain records)]⟩ := by
  simp only [SetHosts, SetHosts.loop_eq_setHostsParams c domain records hvalid, hreq]

theorem SetHosts_of_do_error (c : Env W Req Resp) (domain : String)
    (records : List Record) (w : W) (hvalid : ∀ r ∈ records, r.Valid) (req : Req)
    (e : Error) (w1 w2 : W)
    (hreq : c.NewRequest (setHostsParams c domain records) w = (.ok req, w1))
    (hdo : c.Do req w1 = (.error e, w2)) :
    SetHosts c domain records w =
      ⟨[], some e, w2, [.NewRequest (setHostsParams c domain records), .Do req]⟩ := by
  simp only [SetHosts, SetHosts.loop_eq_setHostsParams c domain records hvalid, hreq, hdo]

theorem SetHosts_of_decode_error (c : Env W Req Resp) (domain : String)
    (records : List Record) (w : W) (hvalid : ∀ r ∈ records, r.Valid) (req : Req)
    (resp : Resp) (e : Error) (w1 w2 w3 : W)
    (hreq : c.NewRequest (setHostsParams c domain records) w = (.ok req, w1))
    (hdo : c.Do req w1 = (.ok resp, w2))
    (hdec : c.decodeCreateResult resp w2 = (.error e, w3)) :
    SetHosts c domain records w =
      ⟨[], some e, c.Close resp w3,
        [.NewRequest (setHostsParams c domain records), .Do req, .decode resp,
          .Close resp]⟩ := by
  simp only [SetHosts, SetHosts.loop_eq_setHostsParams c domain records hvalid, hreq, hdo,
    hdec]

theorem SetHosts_of_not_success (c : Env W Req Resp) (domain : String)
    (records : List Record) (w : W) (hvalid : ∀ r ∈ records, r.Valid) (req : Req)
    (resp : Resp) (ret : RecordsCreateResult) (w1 w2 w3 : W)
    (hreq : c.NewRequest (setHostsParams c domain records) w = (.ok req, w1))
    (hdo : c.Do req w1 = (.ok resp, w2))
    (hdec : c.decodeCreateResult resp w2 = (.ok ret, w3))
    (hfail : ret.IsSuccess = false) :
    SetHosts c domain records w =
      ⟨[], some (Errorf (errorBuf "" ret.Errors)), c.Close resp w3,
        [.NewRequest (setHostsParams c domain records), .Do req, .decode resp,
          .Close resp]⟩ := by
  simp only [SetHosts, SetHosts.loop_eq_setHostsParams c domain records hvalid, hreq, hdo,
    hdec, hfail, if_true]

theorem SetHosts_of_success (c : Env W Req Resp) (domain : String)
    (records : List Record) (w : W) (hvalid : ∀ r ∈ records, r.Valid) (req : Req)
    (resp : Resp) (ret : RecordsCreateResult) (w1 w2 w3 : W)
    (hreq : c.NewRequest (setHostsParams c domain records) w = (.ok req, w1))
    (hdo : c.Do req w1 = (.ok resp, w2))
    (hdec : c.decodeCreateResult resp w2 = (.ok ret, w3))
    (hsucc : ret.IsSuccess = true) :
    SetHosts c domain records w =
      ⟨(match (GetHosts c domain w3).err with
          | some _ => []
          | none => (GetHosts c domain w3).records),
        (GetHosts c domain w3).err,
        c.Close resp (GetHosts c domain w3).world,
        [.NewRequest (setHostsParams c domain records), .Do req, .decode resp]
          ++ (GetHosts c domain w3).calls ++ [.Close resp]⟩ := by
  simp only [SetHosts, SetHosts.loop_eq_setHostsParams c domain records hvalid, hreq, hdo,
    hdec, hsucc, Bool.true_eq_false, if_false]
  cases (GetHosts c domain w3).err <;> rfl

/-- On valid records the first collaborator call of `SetHosts` is `NewRequest`, with the
parameter set the specification describes. -/
theorem SetHosts_calls_of_valid (c : Env W Req Resp) (domain : String)
    (records : List Record) (w : W) (hvalid : ∀ r ∈ records, r.Valid) :
    ∃ rest, (SetHosts c domain records w).calls =
      Call.NewRequest (setHostsParams c domain records) :: rest := by
  rcases hreq : c.NewRequest (setHostsParams c domain records) w with ⟨e | req, w1⟩
  · exact ⟨_, by rw [SetHosts_of_newRequest_error c domain records w hvalid e w1 hreq]⟩
  · rcases hdo : c.Do req w1 with ⟨e | resp, w2⟩
    · exact ⟨_, by rw [SetHosts_of_do_error c domain records w hvalid req e w1 w2 hreq hdo]⟩
    · rcases hdec : c.decodeCreateResult resp w2 with ⟨e | ret, w3⟩
      · exact ⟨_, by
          rw [SetHosts_of_decode_error c domain records w hvalid req resp e w1 w2 w3 hreq hdo
            hdec]⟩
      · cases hs : ret.IsSuccess with
        | false =>
          exact ⟨_, by
            rw [SetHosts_of_not_success c domain records w hvalid req resp ret w1 w2 w3 hreq
              hdo hdec hs]⟩
        | true =>
          exact ⟨_, by
            rw [SetHosts_of_success c domain records w hvalid req resp ret w1 w2 w3 hreq hdo
              hdec hs]; rfl⟩

theorem recordGroups_mem : ∀ (records : List Record) (start i : Nat) (hi : i < records.length)
    (p : String × String), p ∈ recordGroup (start + i) records[i] →
    p ∈ recordGroups start records := by
  intro records
  induction records with
  | nil => intro start i hi; simp at hi
  | cons r rest ih =>
    intro start i hi p hp
    simp only [recordGroups, List.mem_append]
    cases i with
    | zero => exact Or.inl (by simpa using hp)
    | succ n =>
      refine Or.inr (ih (start + 1) n (by simpa using hi) p ?_)
      have e : start + 1 + n = start + (n + 1) := by omega
      rw [e]
      simpa using hp

/-! ## Splitting the domain -/

theorem HasSuffix_iff (s t : String) : HasSuffix s t = true ↔ ∃ a : String, s = a ++ t := by
  unfold HasSuffix
  rw [ List.isPrefixOf_iff_prefix, List.reverse_prefix]
  constructor
  · rintro ⟨a, ha⟩
    exact ⟨String.mk a, String.ext (by simpa using ha.symm)⟩
  · rintro ⟨a, rfl⟩
    exact ⟨a.data, by simp⟩

theorem TrimSuffix_append (a t : String) : TrimSuffix (a ++ t) t = a := by
  have h : HasSuffix (a ++ t) t = true := (HasSuffix_iff _ _).2 ⟨a, rfl⟩
  simp only [TrimSuffix, h, if_true]
  apply String.ext
  simp

theorem TrimSuffix_of_not_suffix (s t : String) (h : ¬ ∃ a : String, s = a ++ t) :
    TrimSuffix s t = s := by
  have h1 : ¬ HasSuffix s t = true := fun h2 => h ((HasSuffix_iff _ _).1 h2)
  simp only [TrimSuffix, h1, if_false]
  rfl

/-- Every path of `GetHosts` starts with `NewRequest` on the three-entry map. -/
theorem GetHosts_calls (c : Env W Req Resp) (domain : String) (w : W) :
    ∃ rest, (GetHosts c domain w).calls =
      Call.NewRequest [("Command", "namecheap.domains.dns.getHosts"),
        ("SLD", TrimSuffix domain ("." ++ (c.PublicSuffix domain).1)),
        ("TLD", (c.PublicSuffix domain).1)] :: rest := by
  rcases hreq : c.NewRequest [("Command", "namecheap.domains.dns.getHosts"),
        ("SLD", TrimSuffix domain ("." ++ (c.PublicSuffix domain).1)),
        ("TLD", (c.PublicSuffix domain).1)] w with ⟨e | req, w1⟩
  · exact ⟨_, by simp only [GetHosts, hreq]; rfl⟩
  · rcases hdo : c.Do req w1 with ⟨e | resp, w2⟩
    · exact ⟨_, by simp only [GetHosts, hreq, hdo]; rfl⟩
    · rcases hdec : c.decodeRecordsResponse resp w2 with ⟨e | rr, w3⟩
      · exact ⟨_, by simp only [GetHosts, hreq, hdo, hdec]; rfl⟩
      · exact ⟨_, by simp only [GetHosts, hreq, hdo, hdec]; rfl⟩

/-- When `GetHosts` returns an error, it returns nil records. -/
theorem GetHosts_records_of_error (c : Env W Req Resp) (domain : String) (w : W)
    (e : Error) (h : (GetHosts c domain w).err = some e) :
    (GetHosts c domain w).records = [] := by
  rcases hreq : c.NewRequest [("Command", "namecheap.domains.dns.getHosts"),
        ("SLD", TrimSuffix domain ("." ++ (c.PublicSuffix domain).1)),
        ("TLD", (c.PublicSuffix domain).1)] w with ⟨e1 | req, w1⟩
  · simp only [GetHosts, hreq]
  · rcases hdo : c.Do req w1 with ⟨e1 | resp, w2⟩
    · simp only [GetHosts, hreq, hdo]
    · rcases hdec : c.decodeRecordsResponse resp w2 with ⟨e1 | rr, w3⟩
      · simp only [GetHosts, hreq, hdo, hdec]
      · simp only [GetHosts, hreq, hdo, hdec] at h
        exact Option.noConfusion h

/-- Reading the three shared fields back from the parameter set of `SetHosts`. -/
theorem setHostsParams_get_shared (c : Env W Req Resp) (domain : String)
    (records : List Record) :
    (setHostsParams c domain records).get "Command" = some "namecheap.domains.dns.setHosts" ∧
    (setHostsParams c domain records).get "SLD" =
      some (TrimSuffix domain ("." ++ (c.PublicSuffix domain).1)) ∧
    (setHostsParams c domain records).get "TLD" = some (c.PublicSuffix domain).1 :=
  ⟨rfl, rfl, rfl⟩

/-! ## The claims -/

/-- C1: `CheckRecordType s` is true exactly when `s` is one of the eleven strings A, AAAA,
ALIAS, CAA, CNAME, MX, MXE, TXT, URL, URL301, FRAME, compared as they are written; it is
false on every other string, among them `"a"` and the empty string. -/
theorem C1_CheckRecordType_iff_allowed (s : String) :
    (CheckRecordType s = true ↔
      (s = "A" ∨ s = "AAAA" ∨ s = "ALIAS" ∨ s = "CAA" ∨ s = "CNAME" ∨ s = "MX" ∨
        s = "MXE" ∨ s = "TXT" ∨ s = "URL" ∨ s = "URL301" ∨ s = "FRAME")) ∧
    CheckRecordType "a" = false ∧ CheckRecordType "" = false ∧ CheckRecordType "A " = false := by
  refine ⟨?_, by decide, by decide, by decide⟩
  simp [CheckRecordType, CheckRecordType.loop, allowedRecordTypes]

/-- C2: when some record of the list, at any position, has a record type outside the
allowed set, `SetHosts` returns nil records and a validation error (the record-type error
or the TTL error), makes no collaborator call at all (no `NewRequest`, no `Http.Do`) and
leaves the world as it was. -/
theorem C2_invalid_type_fails_before_network (c : Env W Req Resp) (domain : String)
    (records : List Record) (w : W)
    (h : ∃ r ∈ records, CheckRecordType r.RecordType = false) :
    (SetHosts c domain records w).records = [] ∧
    ((SetHosts c domain records w).err = some errInvalidRecordType ∨
      (SetHosts c domain records w).err = some errInvalidTTL) ∧
    (SetHosts c domain records w).calls = [] ∧
    (SetHosts c domain records w).world = w := by
  obtain ⟨r, hr, hbad⟩ := h
  obtain ⟨pre, r1, post, heq, hpre, hbad1⟩ :=
    exists_first_invalid records ⟨r, hr, not_valid_of_type r hbad⟩
  rw [heq, SetHosts_of_first_invalid c domain w pre r1 post hpre hbad1]
  refine ⟨rfl, ?_, rfl, rfl⟩
  by_cases ht : CheckRecordType r1.RecordType = false
  · exact Or.inl (by simp [ht])
  · exact Or.inr (by simp [ht])

/-- A list whose second record has the type `a`: nothing is sent. -/
theorem C2_witness :
    (∃ r ∈ [(⟨"www", "A", "1.2.3.4", 10, 1800⟩ : Record), ⟨"x", "a", "1.2.3.4", 10, 1800⟩],
      CheckRecordType r.RecordType = false) ∧
    (SetHosts scripted "example.com"
      [⟨"www", "A", "1.2.3.4", 10, 1800⟩, ⟨"x", "a", "1.2.3.4", 10, 1800⟩] []).calls = [] :=
  ⟨by decide,
    (C2_invalid_type_fails_before_network scripted "example.com"
      [⟨"www", "A", "1.2.3.4", 10, 1800⟩, ⟨"x", "a", "1.2.3.4", 10, 1800⟩] []
      (by decide)).2.2.1⟩

/-- C3: for a list whose record types are all allowed, `SetHosts` returns the TTL error
(message `Invalid ttl value, min=60, max=60000`) with nil records and without any
collaborator call exactly when some record has a TTL below 60 or above 60000.  The bounds
are inclusive: a single record with TTL 60 or 60000 reaches `NewRequest`, one with TTL 59
or 60001 is rejected before it. -/
theorem C3_ttl_error_iff_out_of_range (c : Env W Req Resp) (domain : String)
    (records : List Record) (w : W)
    (htypes : ∀ r ∈ records, CheckRecordType r.RecordType = true) :
    (((SetHosts c domain records w).err = some errInvalidTTL ∧
        (SetHosts c domain records w).calls = []) ↔
      ∃ r ∈ records, r.TTL < 60 ∨ r.TTL > 60000) ∧
    ((∃ r ∈ records, r.TTL < 60 ∨ r.TTL > 60000) →
      (SetHosts c domain records w).records = [] ∧
      (SetHosts c domain records w).world = w) ∧
    errInvalidTTL.msg = "Invalid ttl value, min=60, max=60000" ∧
    (∀ r : Record, CheckRecordType r.RecordType = true →
      (r.TTL = 60 ∨ r.TTL = 60000 →
        ∃ p rest, (SetHosts c domain [r] w).calls = Call.NewRequest p :: rest) ∧
      (r.TTL = 59 ∨ r.TTL = 60001 →
        (SetHosts c domain [r] w).err = some errInvalidTTL ∧
        (SetHosts c domain [r] w).calls = [])) := by
  have hrej : (∃ r ∈ records, r.TTL < 60 ∨ r.TTL > 60000) →
      SetHosts c domain records w = ⟨[], some errInvalidTTL, w, []⟩ := by
    rintro ⟨r, hr, hrange⟩
    have hbad : ¬ r.Valid := by
      rintro ⟨_, hlo, hhi⟩
      omega
    obtain ⟨pre, r1, post, heq, hpre, hbad1⟩ := exists_first_invalid records ⟨r, hr, hbad⟩
    have hr1 : CheckRecordType r1.RecordType = true := htypes r1 (by simp [heq])
    rw [heq, SetHosts_of_first_invalid c domain w pre r1 post hpre hbad1]
    simp [hr1]
  refine ⟨⟨?_, ?_⟩, ?_, by decide, ?_⟩
  · intro hout
    by_contra hno
    have hvalid : ∀ r ∈ records, r.Valid := by
      intro r hr
      refine ⟨htypes r hr, ?_, ?_⟩
      · by_contra hlt; exact hno ⟨r, hr, Or.inl (by omega)⟩
      · by_contra hgt; exact hno ⟨r, hr, Or.inr (by omega)⟩
    obtain ⟨rest, hcalls⟩ := SetHosts_calls_of_valid c domain records w hvalid
    rw [hout.2] at hcalls
    exact List.noConfusion hcalls
  · intro h
    rw [hrej h]
    exact ⟨rfl, rfl⟩
  · intro h
    rw [hrej h]
    exact ⟨rfl, rfl⟩
  · intro r hr
    constructor
    · intro httl
      have hvalid : ∀ x ∈ [r], x.Valid := by
        intro x hx
        rw [List.mem_singleton] at hx
        subst hx
        exact ⟨hr, by omega, by omega⟩
      obtain ⟨rest, hcalls⟩ := SetHosts_calls_of_valid c domain [r] w hvalid
      exact ⟨_, rest, hcalls⟩
    · intro httl
      have hbad : ¬ r.Valid := by
        rintro ⟨_, hlo, hhi⟩
        omega
      have h := SetHosts_of_first_invalid c domain w [] r [] (by simp) hbad
      simp only [List.nil_append] at h
      rw [h]
      simp [hr]

/-- A single record with TTL 59 is rejected with the TTL error. -/
theorem C3_witness :
    (∀ r ∈ [(⟨"www", "A", "1.2.3.4", 10, 59⟩ : Record)],
      CheckRecordType r.RecordType = true) ∧
    (SetHosts scripted "example.com" [⟨"www", "A", "1.2.3.4", 10, 59⟩] []).err
      = some ⟨"Invalid ttl value, min=60, max=60000"⟩ :=
  ⟨by decide,
    ((C3_ttl_error_iff_out_of_range scripted "example.com"
      [⟨"www", "A", "1.2.3.4", 10, 59⟩] [] (by decide)).1.2 (by decide)).1⟩

/-- C10: in a list with an invalid record, the first invalid record in input order (all
records before it are valid) decides the error of `SetHosts`: the record-type error when
its record type is not allowed, whatever its TTL, and the TTL error otherwise; no
collaborator is called, and the records after it do not change the outcome.  The two
messages are the texts `host.go` formats. -/
theorem C10_first_violation_decides (c : Env W Req Resp) (domain : String) (w : W)
    (pre : List Record) (r : Record) (post : List Record)
    (hpre : ∀ x ∈ pre, CheckRecordType x.RecordType = true ∧ 60 ≤ x.TTL ∧ x.TTL ≤ 60000)
    (hbad : CheckRecordType r.RecordType = false ∨ r.TTL < 60 ∨ r.TTL > 60000) :
    (CheckRecordType r.RecordType = false →
      SetHosts c domain (pre ++ r :: post) w = ⟨[], some errInvalidRecordType, w, []⟩) ∧
    (CheckRecordType r.RecordType = true →
      SetHosts c domain (pre ++ r :: post) w = ⟨[], some errInvalidTTL, w, []⟩) ∧
    (∀ post1 : List Record,
      SetHosts c domain (pre ++ r :: post1) w = SetHosts c domain (pre ++ r :: post) w) ∧
    errInvalidRecordType.msg =
      "Invalid record type, allowed types=\"A, AAAA, ALIAS, CAA, CNAME, MX, MXE, TXT, URL, URL301, FRAME\"" ∧
    errInvalidTTL.msg = "Invalid ttl value, min=60, max=60000" := by
  have hbad1 : ¬ r.Valid := by
    rintro ⟨ht, hlo, hhi⟩
    rcases hbad with h | h | h
    · rw [ht] at h; exact Bool.noConfusion h
    · omega
    · omega
  have key := fun p => SetHosts_of_first_invalid c domain w pre r p hpre hbad1
  refine ⟨?_, ?_, ?_, by decide, by decide⟩
  · intro ht
    rw [key post]
    simp [ht]
  · intro ht
    rw [key post]
    simp [ht]
  · intro post1
    rw [key post1, key post]

/-- A valid record, then one with the type `cname` and TTL 5, then one with TTL 7: the
result is the record-type error of the second record. -/
theorem C10_witness :
    (∀ x ∈ [(⟨"www", "A", "1.2.3.4", 10, 1800⟩ : Record)],
      CheckRecordType x.RecordType = true ∧ 60 ≤ x.TTL ∧ x.TTL ≤ 60000) ∧
    (CheckRecordType "cname" = false ∨ (5 : Int) < 60 ∨ (5 : Int) > 60000) ∧
    SetHosts scripted "example.com"
      ([⟨"www", "A", "1.2.3.4", 10, 1800⟩] ++ ⟨"x", "cname", "y", 0, 5⟩ ::
        [⟨"z", "A", "1.2.3.4", 10, 7⟩]) []
      = ⟨[], some errInvalidRecordType, [], []⟩ :=
  ⟨by decide, by decide,
    (C10_first_violation_decides scripted "example.com" []
      [⟨"www", "A", "1.2.3.4", 10, 1800⟩] ⟨"x", "cname", "y", 0, 5⟩
      [⟨"z", "A", "1.2.3.4", 10, 7⟩] (by decide) (by decide)).1 (by decide)⟩

/-- C4: for a list of `N` valid records (the empty list included) the map `SetHosts` hands
to `NewRequest` is the one the specification describes: `Command`, `SLD`, `TLD`, then for
the `i`-th record, in input order, `HostName<i>`, `RecordType<i>`, `Address<i>`,
`MXPref<i>`, `TTL<i>` with `<i>` the decimal text of the 1-based index.  It has `3 + 5N`
entries, its keys are pairwise different, and reading a key gives the value listed. -/
theorem C4_parameter_set_of_valid_records (c : Env W Req Resp) (domain : String)
    (records : List Record) (w : W) (hvalid : ∀ r ∈ records, r.Valid) :
    (∃ rest, (SetHosts c domain records w).calls =
      Call.NewRequest (setHostsParams c domain records) :: rest) ∧
    (setHostsParams c domain records).length = 3 + 5 * records.length ∧
    (setHostsParams c domain records).keys.Nodup ∧
    (setHostsParams c domain records).get "Command" = some "namecheap.domains.dns.setHosts" ∧
    (setHostsParams c domain records).get "SLD" =
      some (TrimSuffix domain ("." ++ (c.PublicSuffix domain).1)) ∧
    (setHostsParams c domain records).get "TLD" = some (c.PublicSuffix domain).1 ∧
    (∀ (i : Nat) (hi : i < records.length),
      (setHostsParams c domain records).get ("HostName" ++ Itoa ((i + 1 : Nat) : Int))
        = some records[i].Name ∧
      (setHostsParams c domain records).get ("RecordType" ++ Itoa ((i + 1 : Nat) : Int))
        = some records[i].RecordType ∧
      (setHostsParams c domain records).get ("Address" ++ Itoa ((i + 1 : Nat) : Int))
        = some records[i].Address ∧
      (setHostsParams c domain records).get ("MXPref" ++ Itoa ((i + 1 : Nat) : Int))
        = some (Itoa records[i].MXPref) ∧
      (setHostsParams c domain records).get ("TTL" ++ Itoa ((i + 1 : Nat) : Int))
        = some (Itoa records[i].TTL)) := by
  have hnd := expectedParams_keys_nodup "namecheap.domains.dns.setHosts"
    (TrimSuffix domain ("." ++ (c.PublicSuffix domain).1)) (c.PublicSuffix domain).1 records
  have hget : ∀ k v, (k, v) ∈ setHostsParams c domain records →
      (setHostsParams c domain records).get k = some v :=
    fun k v h => Params.get_of_mem _ hnd k v h
  refine ⟨SetHosts_calls_of_valid c domain records w hvalid, ?_, hnd,
    (setHostsParams_get_shared c domain records).1,
    (setHostsParams_get_shared c domain records).2.1,
    (setHostsParams_get_shared c domain records).2.2, ?_⟩
  · simp only [setHostsParams, expectedParams, List.length_append, recordGroups_length,
      List.length_cons, List.length_nil]
  · intro i hi
    have hmem : ∀ p, p ∈ recordGroup (i + 1) records[i] →
        p ∈ setHostsParams c domain records := by
      intro p hp
      simp only [setHostsParams, expectedParams, List.mem_append]
      refine Or.inr (recordGroups_mem records 1 i hi p ?_)
      rwa [Nat.add_comm 1 i]
    refine ⟨hget _ _ (hmem _ ?_), hget _ _ (hmem _ ?_), hget _ _ (hmem _ ?_),
      hget _ _ (hmem _ ?_), hget _ _ (hmem _ ?_)⟩ <;> simp [recordGroup]

/-- The scenario of the specification: `SetHosts("example.com", [www A 1.2.3.4 10 1800])`
sends the eight parameters listed there. -/
theorem C4_witness :
    (∀ r ∈ [(⟨"www", "A", "1.2.3.4", 10, 1800⟩ : Record)], r.Valid) ∧
    setHostsParams scripted "example.com" [⟨"www", "A", "1.2.3.4", 10, 1800⟩] =
      [("Command", "namecheap.domains.dns.setHosts"), ("SLD", "example"), ("TLD", "com"),
       ("HostName1", "www"), ("RecordType1", "A"), ("Address1", "1.2.3.4"),
       ("MXPref1", "10"), ("TTL1", "1800")] ∧
    (∃ rest, (SetHosts scripted "example.com" [⟨"www", "A", "1.2.3.4", 10, 1800⟩]
        [Reply.created ⟨true, []⟩, Reply.hosts ⟨[⟨"www", "A", "1.2.3.4", 10, 1800⟩]⟩]).calls =
      Call.NewRequest (setHostsParams scripted "example.com"
        [⟨"www", "A", "1.2.3.4", 10, 1800⟩]) :: rest) :=
  ⟨by decide, by decide,
    (C4_parameter_set_of_valid_records scripted "example.com"
      [⟨"www", "A", "1.2.3.4", 10, 1800⟩]
      [Reply.created ⟨true, []⟩, Reply.hosts ⟨[⟨"www", "A", "1.2.3.4", 10, 1800⟩]⟩]
      (by decide)).1⟩

/-- C5 (as stated) fails: with `Errors = [("1", "%d")]` the message is
`Number: 1 Message: %!d(MISSING)` plus a newline, which does not contain the rendering
`Number: 1 Message: %d`; and with the pair of the specification,
`("1011150", "Domain not found")`, the message ends in a newline, so it is not the
renderings joined by newlines. -/
theorem C5_counterexample :
    (SetHosts scripted "example.com" [] [Reply.created ⟨false, [⟨"1", "%d"⟩]⟩]).err
      = some ⟨"Number: 1 Message: %!d(MISSING)\n"⟩ ∧
    ¬ ((renderError ⟨"1", "%d"⟩).data <:+: "Number: 1 Message: %!d(MISSING)\n".data) ∧
    (SetHosts scripted "example.com" []
        [Reply.created ⟨false, [⟨"1011150", "Domain not found"⟩]⟩]).err
      = some ⟨"Number: 1011150 Message: Domain not found\n"⟩ ∧
    (SetHosts scripted "example.com" []
        [Reply.created ⟨false, [⟨"1011150", "Domain not found"⟩]⟩]).err
      ≠ some ⟨Join [renderError ⟨"1011150", "Domain not found"⟩] "\n"⟩ := by
  refine ⟨by decide, by decide, by decide, by decide⟩

/-- C5 (amended): when the set-hosts request of a valid list is built, sent and decoded
and the response has `IsSuccess = false`, `SetHosts` returns nil records and a non-nil
error, for any error list (the empty one too), and makes no further call: the calls are
`NewRequest`, `Http.Do`, `decode`, `Close`, once each, so there is no follow-up `GetHosts`.
When no `Number` and no `Message` contains `%`, the message is every pair rendered as
`Number: <n> Message: <m>` and followed by a newline, in list order (the empty text for
the empty list), and so contains each rendering. -/
theorem C5_not_success_aggregates_errors (c : Env W Req Resp) (domain : String)
    (records : List Record) (w : W) (hvalid : ∀ r ∈ records, r.Valid) (req : Req)
    (resp : Resp) (ret : RecordsCreateResult) (w1 w2 w3 : W)
    (hreq : c.NewRequest (setHostsParams c domain records) w = (.ok req, w1))
    (hdo : c.Do req w1 = (.ok resp, w2))
    (hdec : c.decodeCreateResult resp w2 = (.ok ret, w3))
    (hfail : ret.IsSuccess = false) :
    (SetHosts c domain records w).records = [] ∧
    (∃ e, (SetHosts c domain records w).err = some e) ∧
    (SetHosts c domain records w).calls =
      [.NewRequest (setHostsParams c domain records), .Do req, .decode resp, .Close resp] ∧
    (ret.Errors = [] → (SetHosts c domain records w).err = some ⟨""⟩) ∧
    ((∀ e ∈ ret.Errors, '%' ∉ e.Number.data ∧ '%' ∉ e.Message.data) →
      (SetHosts c domain records w).err = some ⟨renderLines ret.Errors⟩ ∧
      ∀ e ∈ ret.Errors, (renderError e).data <:+: (renderLines ret.Errors).data) := by
  rw [SetHosts_of_not_success c domain records w hvalid req resp ret w1 w2 w3 hreq hdo hdec
    hfail]
  refine ⟨rfl, ⟨_, rfl⟩, rfl, ?_, ?_⟩
  · intro hnil
    rw [hnil]
    rfl
  · intro hno
    have hbuf : errorBuf "" ret.Errors = renderLines ret.Errors := by
      rw [errorBuf_eq]
      exact String.ext (by simp)
    refine ⟨?_, fun e he => renderLines_contains ret.Errors e he⟩
    simp only [hbuf]
    rw [Errorf_of_no_percent _ (renderLines_no_percent ret.Errors hno)]

/-- The scenario of the specification: the pair `("1011150", "Domain not found")` gives a
message that contains `Number: 1011150 Message: Domain not found`. -/
theorem C5_witness :
    (∀ r ∈ ([] : List Record), r.Valid) ∧
    (SetHosts scripted "example.com" []
        [Reply.created ⟨false, [⟨"1011150", "Domain not found"⟩]⟩]).err
      = some ⟨renderLines [⟨"1011150", "Domain not found"⟩]⟩ ∧
    "Number: 1011150 Message: Domain not found".data <:+:
      (renderLines [⟨"1011150", "Domain not found"⟩]).data :=
  ⟨by decide,
    ((C5_not_success_aggregates_errors scripted "example.com" []
      [Reply.created ⟨false, [⟨"1011150", "Domain not found"⟩]⟩] (by decide)
      (setHostsParams scripted "example.com" [])
      (Reply.created ⟨false, [⟨"1011150", "Domain not found"⟩]⟩)
      ⟨false, [⟨"1011150", "Domain not found"⟩]⟩ _ [] [] rfl rfl rfl rfl).2.2.2.2
      (by decide)).1,
    ((C5_not_success_aggregates_errors scripted "example.com" []
      [Reply.created ⟨false, [⟨"1011150", "Domain not found"⟩]⟩] (by decide)
      (setHostsParams scripted "example.com" [])
      (Reply.created ⟨false, [⟨"1011150", "Domain not found"⟩]⟩)
      ⟨false, [⟨"1011150", "Domain not found"⟩]⟩ _ [] [] rfl rfl rfl rfl).2.2.2.2
      (by decide)).2 ⟨"1011150", "Domain not found"⟩ (by decide)⟩

/-- C6: when the set-hosts request of a valid list is built, sent and decoded without
error and the response has `IsSuccess = true`, `SetHosts` runs `GetHosts` on the same
domain string, in the world the decode left, and returns what `GetHosts` returns: its
records with a nil error, or nil records with its error.  The calls are the three of the
set-hosts round trip, then those of `GetHosts`, then the deferred `Close`. -/
theorem C6_success_returns_GetHosts_outcome (c : Env W Req Resp) (domain : String)
    (records : List Record) (w : W) (hvalid : ∀ r ∈ records, r.Valid) (req : Req)
    (resp : Resp) (ret : RecordsCreateResult) (w1 w2 w3 : W)
    (hreq : c.NewRequest (setHostsParams c domain records) w = (.ok req, w1))
    (hdo : c.Do req w1 = (.ok resp, w2))
    (hdec : c.decodeCreateResult resp w2 = (.ok ret, w3))
    (hsucc : ret.IsSuccess = true) :
    (SetHosts c domain records w).calls =
      [.NewRequest (setHostsParams c domain records), .Do req, .decode resp]
        ++ (GetHosts c domain w3).calls ++ [.Close resp] ∧
    (SetHosts c domain records w).records = (GetHosts c domain w3).records ∧
    (SetHosts c domain records w).err = (GetHosts c domain w3).err ∧
    ((GetHosts c domain w3).err = none →
      (SetHosts c domain records w).records = (GetHosts c domain w3).records ∧
      (SetHosts c domain records w).err = none) ∧
    (∀ e, (GetHosts c domain w3).err = some e →
      (SetHosts c domain records w).records = [] ∧
      (SetHosts c domain records w).err = some e) := by
  rw [SetHosts_of_success c domain records w hvalid req resp ret w1 w2 w3 hreq hdo hdec hsucc]
  refine ⟨rfl, ?_, rfl, ?_, ?_⟩
  · cases hg : (GetHosts c domain w3).err with
    | none => rfl
    | some e => exact (GetHosts_records_of_error c domain w3 e hg).symm
  · intro hg
    simp only [hg, and_self]
  · intro e hg
    simp only [hg, and_self]

/-- The scenario of the specification: after a successful set-hosts reply, the records
returned are those of the get-hosts reply, not the submitted ones. -/
theorem C6_witness :
    (∀ r ∈ [(⟨"www", "A", "1.2.3.4", 10, 1800⟩ : Record)], r.Valid) ∧
    (SetHosts scripted "example.com" [⟨"www", "A", "1.2.3.4", 10, 1800⟩]
        [Reply.created ⟨true, []⟩, Reply.hosts ⟨[⟨"@", "MX", "mail", 5, 300⟩]⟩]).records
      = (GetHosts scripted "example.com" [Reply.hosts ⟨[⟨"@", "MX", "mail", 5, 300⟩]⟩]).records ∧
    (GetHosts scripted "example.com" [Reply.hosts ⟨[⟨"@", "MX", "mail", 5, 300⟩]⟩]).records
      = [⟨"@", "MX", "mail", 5, 300⟩] :=
  ⟨by decide,
    (C6_success_returns_GetHosts_outcome scripted "example.com"
      [⟨"www", "A", "1.2.3.4", 10, 1800⟩]
      [Reply.created ⟨true, []⟩, Reply.hosts ⟨[⟨"@", "MX", "mail", 5, 300⟩]⟩] (by decide)
      (setHostsParams scripted "example.com" [⟨"www", "A", "1.2.3.4", 10, 1800⟩])
      (Reply.created ⟨true, []⟩) ⟨true, []⟩ _ _ _ rfl rfl rfl rfl).2.1,
    by decide⟩

/-- C7: `GetHosts` hands `NewRequest` a map with exactly the three entries `Command`
(`namecheap.domains.dns.getHosts`), `SLD` and `TLD`; and when the request is built, sent
and decoded without error, it has issued that one request (one `NewRequest`, one
`Http.Do`, one `decode`, one `Close`) and returns the decoded record list as it is, with a
nil error. -/
theorem C7_GetHosts_returns_decoded_records (c : Env W Req Resp) (domain : String) (w : W)
    (req : Req) (resp : Resp) (recordsResponse : RecordsResponse) (w1 w2 w3 : W)
    (hreq : c.NewRequest [("Command", "namecheap.domains.dns.getHosts"),
        ("SLD", TrimSuffix domain ("." ++ (c.PublicSuffix domain).1)),
        ("TLD", (c.PublicSuffix domain).1)] w = (.ok req, w1))
    (hdo : c.Do req w1 = (.ok resp, w2))
    (hdec : c.decodeRecordsResponse resp w2 = (.ok recordsResponse, w3)) :
    GetHosts c domain w =
      ⟨recordsResponse.Records, none, c.Close resp w3,
        [.NewRequest [("Command", "namecheap.domains.dns.getHosts"),
            ("SLD", TrimSuffix domain ("." ++ (c.PublicSuffix domain).1)),
            ("TLD", (c.PublicSuffix domain).1)],
          .Do req, .decode resp, .Close resp]⟩ ∧
    (∀ v : W, ∃ params rest, (GetHosts c domain v).calls = Call.NewRequest params :: rest ∧
      params.length = 3 ∧ params.keys = ["Command", "SLD", "TLD"] ∧
      params.get "Command" = some "namecheap.domains.dns.getHosts") := by
  constructor
  · simp only [GetHosts, hreq, hdo, hdec]
  · intro v
    obtain ⟨rest, h⟩ := GetHosts_calls c domain v
    exact ⟨_, rest, h, rfl, rfl, rfl⟩

/-- A run of `GetHosts` on the scripted transport: a record whose type and TTL would not
pass the checks of `SetHosts` is returned as decoded. -/
theorem C7_witness :
    GetHosts scripted "example.com"
        [Reply.hosts ⟨[⟨"b", "NS", "ns1", 0, 5⟩, ⟨"a", "A", "1.2.3.4", 10, 1800⟩]⟩]
      = ⟨[⟨"b", "NS", "ns1", 0, 5⟩, ⟨"a", "A", "1.2.3.4", 10, 1800⟩], none, [],
          [.NewRequest [("Command", "namecheap.domains.dns.getHosts"), ("SLD", "example"),
              ("TLD", "com")],
            .Do [("Command", "namecheap.domains.dns.getHosts"), ("SLD", "example"),
              ("TLD", "com")],
            .decode (Reply.hosts ⟨[⟨"b", "NS", "ns1", 0, 5⟩, ⟨"a", "A", "1.2.3.4", 10, 1800⟩]⟩),
            .Close (Reply.hosts ⟨[⟨"b", "NS", "ns1", 0, 5⟩, ⟨"a", "A", "1.2.3.4", 10, 1800⟩]⟩)]⟩ :=
  (C7_GetHosts_returns_decoded_records scripted "example.com"
    [Reply.hosts ⟨[⟨"b", "NS", "ns1", 0, 5⟩, ⟨"a", "A", "1.2.3.4", 10, 1800⟩]⟩]
    [("Command", "namecheap.domains.dns.getHosts"), ("SLD", "example"), ("TLD", "com")]
    (Reply.hosts ⟨[⟨"b", "NS", "ns1", 0, 5⟩, ⟨"a", "A", "1.2.3.4", 10, 1800⟩]⟩)
    ⟨[⟨"b", "NS", "ns1", 0, 5⟩, ⟨"a", "A", "1.2.3.4", 10, 1800⟩]⟩
    [Reply.hosts ⟨[⟨"b", "NS", "ns1", 0, 5⟩, ⟨"a", "A", "1.2.3.4", 10, 1800⟩]⟩] [] []
    rfl rfl rfl).1

/-- C8: with `e` the public suffix the lookup returns for the domain `d`, the `TLD` sent
is `e` and the `SLD` sent is `TrimSuffix d ("." ++ e)`, by `GetHosts` always and by
`SetHosts` whenever it sends (valid records), so both send the same pair.  That `SLD` is
`d` without the trailing `"." ++ e` when `d` ends with it (then `SLD ++ "." ++ TLD = d`),
and `d` itself otherwise.  For `sub.example.co.uk` with suffix `co.uk` the `SLD` is
`sub.example`; for `example.com` with suffix `com` it is `example`. -/
theorem C8_domain_split_follows_public_suffix (c : Env W Req Resp) (domain : String)
    (records : List Record) (w : W) :
    (∃ p rest, (GetHosts c domain w).calls = Call.NewRequest p :: rest ∧
      p.get "SLD" = some (TrimSuffix domain ("." ++ (c.PublicSuffix domain).1)) ∧
      p.get "TLD" = some (c.PublicSuffix domain).1) ∧
    ((∀ r ∈ records, r.Valid) →
      ∃ p rest, (SetHosts c domain records w).calls = Call.NewRequest p :: rest ∧
        p.get "SLD" = some (TrimSuffix domain ("." ++ (c.PublicSuffix domain).1)) ∧
        p.get "TLD" = some (c.PublicSuffix domain).1) ∧
    (∀ s : String, domain = s ++ ("." ++ (c.PublicSuffix domain).1) →
      TrimSuffix domain ("." ++ (c.PublicSuffix domain).1) = s ∧
      TrimSuffix domain ("." ++ (c.PublicSuffix domain).1) ++ "." ++ (c.PublicSuffix domain).1
        = domain) ∧
    ((¬ ∃ s : String, domain = s ++ ("." ++ (c.PublicSuffix domain).1)) →
      TrimSuffix domain ("." ++ (c.PublicSuffix domain).1) = domain) ∧
    TrimSuffix "sub.example.co.uk" ("." ++ "co.uk") = "sub.example" ∧
    TrimSuffix "example.com" ("." ++ "com") = "example" := by
  refine ⟨?_, ?_, ?_, ?_, by decide, by decide⟩
  · obtain ⟨rest, h⟩ := GetHosts_calls c domain w
    exact ⟨_, rest, h, rfl, rfl⟩
  · intro hvalid
    obtain ⟨rest, h⟩ := SetHosts_calls_of_valid c domain records w hvalid
    exact ⟨_, rest, h, (setHostsParams_get_shared c domain records).2.1,
      (setHostsParams_get_shared c domain records).2.2⟩
  · intro s
    generalize (c.PublicSuffix domain).1 = e
    intro hs
    subst hs
    rw [TrimSuffix_append]
    exact ⟨rfl, String.ext (by simp)⟩
  · intro hno
    exact TrimSuffix_of_not_suffix _ _ hno

/-- The split of `sub.example.co.uk` on the scripted transport, whose lookup returns
`co.uk`: `SetHosts` sends `SLD = sub.example` and `TLD = co.uk`. -/
theorem C8_witness :
    (∀ r ∈ [(⟨"www", "A", "1.2.3.4", 10, 1800⟩ : Record)], r.Valid) ∧
    (∃ p rest, (SetHosts scripted "sub.example.co.uk" [⟨"www", "A", "1.2.3.4", 10, 1800⟩]
        []).calls = Call.NewRequest p :: rest ∧
      p.get "SLD" = some "sub.example" ∧ p.get "TLD" = some "co.uk") :=
  ⟨by decide,
    (C8_domain_split_follows_public_suffix scripted "sub.example.co.uk"
      [⟨"www", "A", "1.2.3.4", 10, 1800⟩] []).2.1 (by decide)⟩

/-- C9: a failure of the set-hosts round trip of a valid list (`NewRequest`, `Http.Do` or
the decode returns the error `e`) makes `SetHosts` return nil records and `e` itself; the
calls made stop there (`Http.Do` at most once, no second `NewRequest`, hence no `GetHosts`),
apart from the deferred `Close` after a failed decode.  `GetHosts` does the same on a
failure of its own round trip. -/
theorem C9_round_trip_errors_are_returned (c : Env W Req Resp) (domain : String)
    (records : List Record) (w : W) (e : Error) :
    ((∀ r ∈ records, r.Valid) →
      (∀ w1, c.NewRequest (setHostsParams c domain records) w = (.error e, w1) →
        SetHosts c domain records w =
          ⟨[], some e, w1, [.NewRequest (setHostsParams c domain records)]⟩) ∧
      (∀ req w1 w2, c.NewRequest (setHostsParams c domain records) w = (.ok req, w1) →
        c.Do req w1 = (.error e, w2) →
        SetHosts c domain records w =
          ⟨[], some e, w2, [.NewRequest (setHostsParams c domain records), .Do req]⟩) ∧
      (∀ req resp w1 w2 w3,
        c.NewRequest (setHostsParams c domain records) w = (.ok req, w1) →
        c.Do req w1 = (.ok resp, w2) →
        c.decodeCreateResult resp w2 = (.error e, w3) →
        SetHosts c domain records w =
          ⟨[], some e, c.Close resp w3,
            [.NewRequest (setHostsParams c domain records), .Do req, .decode resp,
              .Close resp]⟩)) ∧
    (∀ w1, c.NewRequest [("Command", "namecheap.domains.dns.getHosts"),
          ("SLD", TrimSuffix domain ("." ++ (c.PublicSuffix domain).1)),
          ("TLD", (c.PublicSuffix domain).1)] w = (.error e, w1) →
      GetHosts c domain w =
        ⟨[], some e, w1, [.NewRequest [("Command", "namecheap.domains.dns.getHosts"),
          ("SLD", TrimSuffix domain ("." ++ (c.PublicSuffix domain).1)),
          ("TLD", (c.PublicSuffix domain).1)]]⟩) ∧
    (∀ req w1 w2, c.NewRequest [("Command", "namecheap.domains.dns.getHosts"),
          ("SLD", TrimSuffix domain ("." ++ (c.PublicSuffix domain).1)),
          ("TLD", (c.PublicSuffix domain).1)] w = (.ok req, w1) →
      c.Do req w1 = (.error e, w2) →
      GetHosts c domain w =
        ⟨[], some e, w2, [.NewRequest [("Command", "namecheap.domains.dns.getHosts"),
          ("SLD", TrimSuffix domain ("." ++ (c.PublicSuffix domain).1)),
          ("TLD", (c.PublicSuffix domain).1)], .Do req]⟩) ∧
    (∀ req resp w1 w2 w3, c.NewRequest [("Command", "namecheap.domains.dns.getHosts"),
          ("SLD", TrimSuffix domain ("." ++ (c.PublicSuffix domain).1)),
          ("TLD", (c.PublicSuffix domain).1)] w = (.ok req, w1) →
      c.Do req w1 = (.ok resp, w2) →
      c.decodeRecordsResponse resp w2 = (.error e, w3) →
      GetHosts c domain w =
        ⟨[], some e, c.Close resp w3,
          [.NewRequest [("Command", "namecheap.domains.dns.getHosts"),
            ("SLD", TrimSuffix domain ("." ++ (c.PublicSuffix domain).1)),
            ("TLD", (c.PublicSuffix domain).1)], .Do req, .decode resp, .Close resp]⟩) := by
  refine ⟨fun hvalid => ⟨?_, ?_, ?_⟩, ?_, ?_, ?_⟩
  · intro w1 hreq
    exact SetHosts_of_newRequest_error c domain records w hvalid e w1 hreq
  · intro req w1 w2 hreq hdo
    exact SetHosts_of_do_error c domain records w hvalid req e w1 w2 hreq hdo
  · intro req resp w1 w2 w3 hreq hdo hdec
    exact SetHosts_of_decode_error c domain records w hvalid req resp e w1 w2 w3 hreq hdo hdec
  · intro w1 hreq
    simp only [GetHosts, hreq]
  · intro req w1 w2 hreq hdo
    simp only [GetHosts, hreq, hdo]
  · intro req resp w1 w2 w3 hreq hdo hdec
    simp only [GetHosts, hreq, hdo, hdec]

/-- A transport failure on the scripted transport: `Http.Do` fails with `timeout`, and
`SetHosts` returns that error after one `NewRequest` and one `Http.Do`. -/
theorem C9_witness :
    (∀ r ∈ [(⟨"www", "A", "1.2.3.4", 10, 1800⟩ : Record)], r.Valid) ∧
    SetHosts scripted "example.com" [⟨"www", "A", "1.2.3.4", 10, 1800⟩]
        [Reply.doFails ⟨"timeout"⟩, Reply.hosts ⟨[]⟩]
      = ⟨[], some ⟨"timeout"⟩, [Reply.hosts ⟨[]⟩],
          [.NewRequest (setHostsParams scripted "example.com"
              [⟨"www", "A", "1.2.3.4", 10, 1800⟩]),
            .Do (setHostsParams scripted "example.com"
              [⟨"www", "A", "1.2.3.4", 10, 1800⟩])]⟩ :=
  ⟨by decide,
    ((C9_round_trip_errors_are_returned scripted "example.com"
      [⟨"www", "A", "1.2.3.4", 10, 1800⟩]
      [Reply.doFails ⟨"timeout"⟩, Reply.hosts ⟨[]⟩] ⟨"timeout"⟩).1 (by decide)).2.1
      _ _ _ rfl rfl⟩

end Namecheap
